import Mathlib

/-!
Verification of the dual-account grid bot (`octopus.py`).

The program maintains two price ladders of resting limit orders plus one
protective stop per account, sized from the smaller of the two account
equities, and on every tick reconciles the saved order records against the
live order book (`check_integrity`), rebuilding the grid when the check
reports the state invalid (`place_grid`).

Python floats are modelled as exact rationals (`ℚ`); the rounding built
into Python (round half to even) is modelled by `pyRound`; the
`ZeroDivisionError` that float division by zero raises is modelled by
returning `none` from `check_integrity`.
-/

namespace EqualOpp

/-- The `meta_type` / `type` tag on orders and saved records: `"limit"` or `"stop"`. -/
inductive Role
  | limit
  | stop
deriving DecidableEq

/-- Order side, `"buy"` or `"sell"` in the source. -/
inductive Side
  | buy
  | sell
deriving DecidableEq

/-- Instrument rounding parameters held on the bot:
`self.tick_size`, `self.qty_step`, `self.min_qty`. -/
structure InstrumentSpec where
  tick_size : ℚ
  qty_step : ℚ
  min_qty : ℚ
deriving DecidableEq

/-- One entry of the `KEYS` table: grid levels, stop trigger and sides for an account. -/
structure Config where
  levels : List ℚ
  stop : ℚ
  side : Side
  stop_side : Side
deriving DecidableEq

/-- A live order snapshot from `get_open_orders` (`order_id`, resting price, size). -/
structure LiveOrder where
  order_id : String
  price : ℚ
  size : ℚ
deriving DecidableEq

/-- A persisted order record written by `place_grid`:
`{"id": ..., "type": meta, "price": ..., "size": ...}`. -/
structure SavedRecord where
  id : String
  role : Role
  price : ℚ
  size : ℚ
deriving DecidableEq

/-- An order payload built by `place_grid` before submission. -/
structure TargetOrder where
  role : Role
  side : Side
  price : ℚ
  size : ℚ
  reduceOnly : Bool
deriving DecidableEq

/-- Constant `SIZE_TOLERANCE = 0.05`. -/
def SIZE_TOLERANCE : ℚ := 5 / 100

/-- The `KEYS["LONG"]` configuration. -/
def LONG : Config :=
  { levels := [60000, 61000, 62000, 63000, 64000]
  , stop := 59000
  , side := Side.buy
  , stop_side := Side.sell }

/-- The `KEYS["SHORT"]` configuration. -/
def SHORT : Config :=
  { levels := [66000, 67000, 68000, 69000, 70000]
  , stop := 71000
  , side := Side.sell
  , stop_side := Side.buy }

/-- The constructor defaults `tick_size = 0.5`, `qty_step = min_qty = 0.0001`. -/
def defaultSpec : InstrumentSpec :=
  { tick_size := 1 / 2, qty_step := 1 / 10000, min_qty := 1 / 10000 }

/-- Round half to even, the behavior of the built-in rounding in Python. -/
def pyRound (q : ℚ) : ℤ :=
  if q - Int.floor q < 1 / 2 then Int.floor q
  else if (1 : ℚ) / 2 < q - Int.floor q then Int.floor q + 1
  else if Int.floor q % 2 = 0 then Int.floor q else Int.floor q + 1

/-- Function `round_price`: `steps = round(price / tick_size); steps * tick_size`. -/
def round_price (sp : InstrumentSpec) (price : ℚ) : ℚ :=
  (pyRound (price / sp.tick_size) : ℚ) * sp.tick_size

/-- Function `round_qty`: `steps = round(qty / qty_step); max(steps * qty_step, min_qty)`. -/
def round_qty (sp : InstrumentSpec) (qty : ℚ) : ℚ :=
  max ((pyRound (qty / sp.qty_step) : ℚ) * sp.qty_step) sp.min_qty

/-- The dict comprehension `{o["order_id"]: o for o in openOrders}` followed by a
key lookup: on duplicate ids the *later* entry wins, hence `find?` on the
reversed list. -/
def liveLookup (openOrders : List LiveOrder) (i : String) : Option LiveOrder :=
  openOrders.reverse.find? (fun o => o.order_id == i)

/-- The first loop of `check_integrity`: walk the saved records with
`type == "limit"`; `none` when some saved limit id is absent from the live
book (the Python code returns `False` there), otherwise the sum of the
*live* sizes of those orders. -/
def limitScan (openOrders : List LiveOrder) : List SavedRecord → Option ℚ
  | [] => some 0
  | s :: rest =>
    if s.role = Role.limit then
      match liveLookup openOrders s.id with
      | none => none
      | some o =>
        match limitScan openOrders rest with
        | none => none
        | some acc => some (o.size + acc)
    else limitScan openOrders rest

/-- The second loop of `check_integrity`: walk the saved records with
`type == "stop"` carrying the `stop_found` flag. `some false` models an
early `return False`; `none` models the `ZeroDivisionError` raised by
`abs(live_size - target) / live_size` when the live size is zero; at the
end of the list the Python code returns `stop_found`. -/
def stopScan (openOrders : List LiveOrder) (target : ℚ) :
    Bool → List SavedRecord → Option Bool
  | found, [] => some found
  | found, s :: rest =>
    if s.role = Role.stop then
      match liveLookup openOrders s.id with
      | none => some false
      | some o =>
        if o.size = 0 then none
        else if SIZE_TOLERANCE < |o.size - target| / o.size then some false
        else stopScan openOrders target true rest
    else stopScan openOrders target found rest

/-- Function `check_integrity(name, open_orders, current_pos, min_equity, config)`.
`saved` stands for `self.state.get(name, [])`. `min_equity` and `config`
are parameters of the Python function and are kept here even though its
body never reads them. `none` models a `ZeroDivisionError` escaping the
function; `some b` is its boolean classification. -/
def check_integrity (sp : InstrumentSpec) (saved : List SavedRecord)
    (openOrders : List LiveOrder) (current_pos : ℚ)
    (min_equity : ℚ) (config : Config) : Option Bool :=
  if saved = [] then some false
  else
    match limitScan openOrders saved with
    | none => some false
    | some limit_size_sum =>
      stopScan openOrders (round_qty sp (current_pos + limit_size_sum)) false saved

/-- The sort `sorted(levels, reverse=(side == buy))` applied to the configured levels. -/
def sortLevels (side : Side) (levels : List ℚ) : List ℚ :=
  if side = Side.buy then (levels.insertionSort (· ≤ ·)).reverse
  else levels.insertionSort (· ≤ ·)

/-- The level loop of `place_grid`: walks the sorted levels carrying
`filled_qty_tracker`; returns the emitted limit payloads together with
`pending_limit_size`. A rung is skipped (and the tracker decremented by its
ideal size) when `filled_qty_tracker >= ideal_qty * 0.9`. -/
def buildLimits (sp : InstrumentSpec) (side : Side) (base_value : ℚ) :
    ℚ → List ℚ → List TargetOrder × ℚ
  | _, [] => ([], 0)
  | tracker, raw :: rest =>
    let price := round_price sp raw
    let ideal := round_qty sp (base_value / price)
    if ideal * (9 / 10) ≤ tracker then
      buildLimits sp side base_value (tracker - ideal) rest
    else
      let r := buildLimits sp side base_value tracker rest
      (⟨Role.limit, side, price, ideal, false⟩ :: r.1, ideal + r.2)

/-- Function `place_grid(name, client, config, base_equity)`: `none` when
`base_equity <= 0` (the Python code returns without placing anything),
otherwise the list of order payloads it submits, in submission order:
the emitted limit orders followed by the single stop order.
`current_pos` stands for `self.get_position(client)`. -/
def place_grid (sp : InstrumentSpec) (config : Config)
    (base_equity current_pos : ℚ) : Option (List TargetOrder) :=
  if base_equity ≤ 0 then none
  else
    let base_value := base_equity / 10
    let r := buildLimits sp config.side base_value current_pos
      (sortLevels config.side config.levels)
    some (r.1 ++
      [⟨Role.stop, config.stop_side, round_price sp config.stop,
        round_qty sp (current_pos + r.2), true⟩])

/-- The state entries `place_grid` persists when every submission is
accepted and the exchange assigns the ids `ids` in submission order:
`{"id": ..., "type": meta, "price": ..., "size": ...}`. -/
def recordsOf (ids : List String) (orders : List TargetOrder) : List SavedRecord :=
  (ids.zip orders).map (fun p => ⟨p.1, p.2.role, p.2.price, p.2.size⟩)

/-- The live order book holding exactly the submitted orders, unchanged,
under the same id assignment. -/
def liveOf (ids : List String) (orders : List TargetOrder) : List LiveOrder :=
  (ids.zip orders).map (fun p => ⟨p.1, p.2.price, p.2.size⟩)

/-- Sum of the `size` fields of a payload list. -/
def sumSizes (orders : List TargetOrder) : ℚ := (orders.map TargetOrder.size).sum

/-- Boolean test for the stop role of a payload. -/
def TargetOrder.isStop (o : TargetOrder) : Bool :=
  match o.role with
  | Role.stop => true
  | Role.limit => false

/-- Boolean test for the limit role of a payload. -/
def TargetOrder.isLimit (o : TargetOrder) : Bool :=
  match o.role with
  | Role.limit => true
  | Role.stop => false

/-- Boolean test for the stop role of a saved record. -/
def SavedRecord.isStopRec (s : SavedRecord) : Bool :=
  match s.role with
  | Role.stop => true
  | Role.limit => false

/-- Sum of the sizes of the saved records with role limit, in list order. -/
def limitSizeSum : List SavedRecord → ℚ
  | [] => 0
  | s :: rest => (if s.role = Role.limit then s.size else 0) + limitSizeSum rest

/-- The per-rung sizing of `place_grid`:
`ideal_qty = round_qty((base_equity / 10) / roundedPrice)` with
`base_equity = min(eq_long, eq_short)` computed in `run`. -/
def ComputeOrderSize (sp : InstrumentSpec) (roundedPrice e1 e2 : ℚ) : ℚ :=
  round_qty sp (min e1 e2 / 10 / roundedPrice)

/-- String constant used by `close_open_position`. -/
def longWord : String := "long"

/-- String constant used by `close_open_position`. -/
def sellWord : String := "sell"

/-- String constant used by `close_open_position`. -/
def buyWord : String := "buy"

/-- String constant used by `close_open_position`. -/
def mktWord : String := "mkt"

/-- The market-close payload built by `close_open_position` for an open
position of side `posSide` and the given size. The Python payload is
`{"orderType": "mkt", "symbol": ..., "side": exit_side, "size": size}`;
it carries no `reduceOnly` key, so the flag is `false`. -/
structure ClosePayload where
  orderType : String
  side : String
  size : ℚ
  reduceOnly : Bool
deriving DecidableEq

/-- Payload construction of `close_open_position`:
`exit_side = "sell" if direction == "long" else "buy"`. -/
def close_position_order (posSide : String) (size : ℚ) : ClosePayload :=
  { orderType := mktWord
  , side := if posSide == longWord then sellWord else buyWord
  , size := size
  , reduceOnly := false }

/-- Abstract step names for the two flows that rebuild an account. -/
inductive BotStep
  | cancelOrders
  | closePosition
  | placeGrid
deriving DecidableEq

/-- The cold-start flow run per account in the constructor:
`force_flush` then `close_open_position` (then the state reset). -/
def startup_sequence : List BotStep :=
  [BotStep.cancelOrders, BotStep.closePosition]

/-- The per-tick rebuild flow in `run` when `check_integrity` is false:
`force_flush` then `place_grid`; no position close. -/
def tick_rebuild_sequence : List BotStep :=
  [BotStep.cancelOrders, BotStep.placeGrid]

/-- Netting rule as the specification words it, for comparison with the
level loop of `place_grid`: walking the rungs in filled-first order, a
limit order is emitted exactly when the running covered counter is below
90 percent of the ideal size of the rung; otherwise the rung is skipped
and the counter decremented by that ideal size. -/
def specNetting (sp : InstrumentSpec) (side : Side) (base_value : ℚ) :
    ℚ → List ℚ → List TargetOrder
  | _, [] => []
  | counter, raw :: rest =>
    let price := round_price sp raw
    let ideal := round_qty sp (base_value / price)
    if counter < ideal * (9 / 10) then
      ⟨Role.limit, side, price, ideal, false⟩ ::
        specNetting sp side base_value counter rest
    else specNetting sp side base_value (counter - ideal) rest

/-- Mapping a live order to one with a transformed price, same id and size. -/
def priceMapLive (f : ℚ → ℚ) (o : LiveOrder) : LiveOrder :=
  ⟨o.order_id, f o.price, o.size⟩

/-- Mapping a saved record to one with a transformed price, same id, role, size. -/
def priceMapSaved (f : ℚ → ℚ) (s : SavedRecord) : SavedRecord :=
  ⟨s.id, s.role, f s.price, s.size⟩

/-- Sample exchange order id used in concrete scenarios. -/
def idA : String := "A"

/-- Sample exchange order id used in concrete scenarios. -/
def idS : String := "S"

section Lemmas

lemma floor_le_pyRound (q : ℚ) : Int.floor q ≤ pyRound q := by
  unfold pyRound
  split_ifs <;> omega

lemma pyRound_le_floor_add_one (q : ℚ) : pyRound q ≤ Int.floor q + 1 := by
  unfold pyRound
  split_ifs <;> omega

lemma pyRound_mono {x y : ℚ} (h : x ≤ y) : pyRound x ≤ pyRound y := by
  have hf : Int.floor x ≤ Int.floor y := Int.floor_le_floor h
  rcases lt_or_eq_of_le hf with hlt | heq
  · calc pyRound x ≤ Int.floor x + 1 := pyRound_le_floor_add_one x
      _ ≤ Int.floor y := by omega
      _ ≤ pyRound y := floor_le_pyRound y
  · have hfrac : x - (Int.floor x : ℚ) ≤ y - (Int.floor x : ℚ) := by linarith
    unfold pyRound
    rw [← heq]
    split_ifs <;> first | omega | (exfalso; linarith)

lemma round_qty_mono (sp : InstrumentSpec) (hstep : 0 < sp.qty_step)
    {a b : ℚ} (h : a ≤ b) : round_qty sp a ≤ round_qty sp b := by
  unfold round_qty
  have hq : a / sp.qty_step ≤ b / sp.qty_step := by gcongr
  have := pyRound_mono hq
  have hc : (pyRound (a / sp.qty_step) : ℚ) ≤ (pyRound (b / sp.qty_step) : ℚ) := by
    exact_mod_cast this
  exact max_le_max (mul_le_mul_of_nonneg_right hc (le_of_lt hstep)) le_rfl

lemma min_qty_le_round_qty (sp : InstrumentSpec) (q : ℚ) :
    sp.min_qty ≤ round_qty sp q :=
  le_max_right _ _

lemma liveLookup_priceMap (f : ℚ → ℚ) (l : List LiveOrder) (i : String) :
    liveLookup (l.map (priceMapLive f)) i = (liveLookup l i).map (priceMapLive f) := by
  unfold liveLookup
  rw [← List.map_reverse, List.find?_map]
  rfl

lemma lookup_liveOf_aux :
    ∀ (l : List (String × TargetOrder)) (i : String) (u : TargetOrder),
      (l.map Prod.fst).Nodup → (i, u) ∈ l →
      (l.map fun p => (⟨p.1, p.2.price, p.2.size⟩ : LiveOrder)).find?
          (fun o => o.order_id == i) = some ⟨i, u.price, u.size⟩ := by
  intro l
  induction l with
  | nil => intro i u _ hm; cases hm
  | cons hd t ih =>
    intro i u hnd hm
    rw [List.map_cons, List.nodup_cons] at hnd
    rcases List.mem_cons.1 hm with heq | ht
    · rw [← heq]
      exact List.find?_cons_of_pos _ (by simp)
    · have hj : (hd.1 == i) = false := by
        refine beq_eq_false_iff_ne.2 ?_
        intro hji
        apply hnd.1
        rw [hji]
        exact List.mem_map.2 ⟨(i, u), ht, rfl⟩
      rw [List.map_cons, List.find?_cons_of_neg _ (by simp [hj])]
      exact ih i u hnd.2 ht

lemma liveLookup_liveOf {ids : List String} {orders : List TargetOrder}
    (hnd : ids.Nodup) (hlen : ids.length ≤ orders.length)
    {i : String} {u : TargetOrder} (hm : (i, u) ∈ ids.zip orders) :
    liveLookup (liveOf ids orders) i = some ⟨i, u.price, u.size⟩ := by
  unfold liveLookup liveOf
  rw [← List.map_reverse]
  apply lookup_liveOf_aux
  · rw [List.map_reverse, List.nodup_reverse, List.map_fst_zip _ _ hlen]
    exact hnd
  · exact List.mem_reverse.2 hm

lemma isStopRec_of_stop {s : SavedRecord} (h : s.role = Role.stop) :
    SavedRecord.isStopRec s = true := by
  simp [SavedRecord.isStopRec, h]

lemma isStopRec_of_limit {s : SavedRecord} (h : s.role = Role.limit) :
    SavedRecord.isStopRec s = false := by
  simp [SavedRecord.isStopRec, h]

lemma isLimit_of_limit {o : TargetOrder} (h : o.role = Role.limit) :
    TargetOrder.isLimit o = true := by
  simp [TargetOrder.isLimit, h]

lemma isStop_of_limit {o : TargetOrder} (h : o.role = Role.limit) :
    TargetOrder.isStop o = false := by
  simp [TargetOrder.isStop, h]

lemma limitScan_of_present (live : List LiveOrder) :
    ∀ saved : List SavedRecord,
      (∀ s ∈ saved, s.role = Role.limit →
        ∃ o, liveLookup live s.id = some o ∧ o.size = s.size) →
      limitScan live saved = some (limitSizeSum saved) := by
  intro saved
  induction saved with
  | nil => intro _; rfl
  | cons s rest ih =>
    intro h
    have hrest := ih (fun x hx => h x (List.mem_cons_of_mem s hx))
    by_cases hs : s.role = Role.limit
    · obtain ⟨o, hl, hsz⟩ := h s (List.mem_cons_self s rest) hs
      simp only [limitScan, limitSizeSum, if_pos hs, hl, hrest, hsz]
    · simp only [limitScan, limitSizeSum, if_neg hs, hrest, zero_add]

lemma stopScan_of_matching (live : List LiveOrder) (target : ℚ) (ht : target ≠ 0) :
    ∀ (saved : List SavedRecord) (found : Bool),
      (∀ s ∈ saved, s.role = Role.stop →
        ∃ o, liveLookup live s.id = some o ∧ o.size = target) →
      stopScan live target found saved =
        some (found || saved.any SavedRecord.isStopRec) := by
  intro saved
  induction saved with
  | nil => intro found _; simp [stopScan]
  | cons s rest ih =>
    intro found h
    by_cases hs : s.role = Role.stop
    · obtain ⟨o, hl, hsz⟩ := h s (List.mem_cons_self s rest) hs
      have hrest := ih true (fun x hx => h x (List.mem_cons_of_mem s hx))
      have hnz : ¬ o.size = 0 := by rw [hsz]; exact ht
      have htol : ¬ SIZE_TOLERANCE < |o.size - target| / o.size := by
        rw [hsz, sub_self, abs_zero, zero_div]
        norm_num [SIZE_TOLERANCE]
      simp only [stopScan, if_pos hs, hl, if_neg hnz, if_neg htol, hrest,
        List.any_cons, isStopRec_of_stop hs]
      simp
    · have hrest := ih found (fun x hx => h x (List.mem_cons_of_mem s hx))
      have hrole : s.role = Role.limit := by
        cases hr : s.role
        · rfl
        · exact absurd hr hs
      simp only [stopScan, if_neg hs, hrest, List.any_cons,
        isStopRec_of_limit hrole, Bool.false_or]

lemma buildLimits_cons (sp : InstrumentSpec) (side : Side) (bv tr raw : ℚ)
    (rest : List ℚ) :
    buildLimits sp side bv tr (raw :: rest) =
      if round_qty sp (bv / round_price sp raw) * (9 / 10) ≤ tr then
        buildLimits sp side bv (tr - round_qty sp (bv / round_price sp raw)) rest
      else
        (⟨Role.limit, side, round_price sp raw,
            round_qty sp (bv / round_price sp raw), false⟩ ::
              (buildLimits sp side bv tr rest).1,
          round_qty sp (bv / round_price sp raw) + (buildLimits sp side bv tr rest).2) :=
  rfl

lemma specNetting_cons (sp : InstrumentSpec) (side : Side) (bv counter raw : ℚ)
    (rest : List ℚ) :
    specNetting sp side bv counter (raw :: rest) =
      if counter < round_qty sp (bv / round_price sp raw) * (9 / 10) then
        ⟨Role.limit, side, round_price sp raw,
          round_qty sp (bv / round_price sp raw), false⟩ ::
            specNetting sp side bv counter rest
      else specNetting sp side bv (counter - round_qty sp (bv / round_price sp raw)) rest :=
  rfl

lemma buildLimits_role (sp : InstrumentSpec) (side : Side) (bv : ℚ) :
    ∀ (lvls : List ℚ) (tr : ℚ), ∀ o ∈ (buildLimits sp side bv tr lvls).1,
      o.role = Role.limit := by
  intro lvls
  induction lvls with
  | nil => intro tr o ho; cases ho
  | cons raw rest ih =>
    intro tr o ho
    by_cases hc : round_qty sp (bv / round_price sp raw) * (9 / 10) ≤ tr
    · rw [buildLimits_cons, if_pos hc] at ho
      exact ih _ o ho
    · rw [buildLimits_cons, if_neg hc] at ho
      rcases List.mem_cons.1 ho with heq | ho'
      · rw [heq]
      · exact ih _ o ho'

lemma sumSizes_cons (o : TargetOrder) (l : List TargetOrder) :
    sumSizes (o :: l) = o.size + sumSizes l := rfl

lemma buildLimits_sumSizes (sp : InstrumentSpec) (side : Side) (bv : ℚ) :
    ∀ (lvls : List ℚ) (tr : ℚ),
      sumSizes (buildLimits sp side bv tr lvls).1 = (buildLimits sp side bv tr lvls).2 := by
  intro lvls
  induction lvls with
  | nil => intro tr; rfl
  | cons raw rest ih =>
    intro tr
    by_cases hc : round_qty sp (bv / round_price sp raw) * (9 / 10) ≤ tr
    · rw [buildLimits_cons, if_pos hc]
      exact ih _
    · rw [buildLimits_cons, if_neg hc, sumSizes_cons, ih _]

lemma buildLimits_eq_specNetting (sp : InstrumentSpec) (side : Side) (bv : ℚ) :
    ∀ (lvls : List ℚ) (tr : ℚ),
      (buildLimits sp side bv tr lvls).1 = specNetting sp side bv tr lvls := by
  intro lvls
  induction lvls with
  | nil => intro tr; rfl
  | cons raw rest ih =>
    intro tr
    by_cases hc : round_qty sp (bv / round_price sp raw) * (9 / 10) ≤ tr
    · rw [buildLimits_cons, if_pos hc, specNetting_cons, if_neg (not_lt.2 hc)]
      exact ih _
    · rw [buildLimits_cons, if_neg hc, specNetting_cons, if_pos (not_le.1 hc)]
      rw [ih _]

lemma filter_isLimit_buildLimits (sp : InstrumentSpec) (side : Side) (bv tr : ℚ)
    (lvls : List ℚ) :
    ((buildLimits sp side bv tr lvls).1).filter TargetOrder.isLimit =
      (buildLimits sp side bv tr lvls).1 :=
  List.filter_eq_self.2 fun o ho => isLimit_of_limit (buildLimits_role sp side bv lvls tr o ho)

lemma filter_isStop_buildLimits (sp : InstrumentSpec) (side : Side) (bv tr : ℚ)
    (lvls : List ℚ) :
    ((buildLimits sp side bv tr lvls).1).filter TargetOrder.isStop = [] := by
  rw [List.filter_eq_nil_iff]
  intro o ho
  rw [isStop_of_limit (buildLimits_role sp side bv lvls tr o ho)]
  simp

lemma sortLevels_perm (side : Side) (l : List ℚ) : (sortLevels side l).Perm l := by
  unfold sortLevels
  split_ifs
  · exact (List.reverse_perm _).trans (List.perm_insertionSort _ l)
  · exact List.perm_insertionSort _ l

lemma sortLevels_sorted_buy (l : List ℚ) :
    (sortLevels Side.buy l).Sorted (fun a b : ℚ => b ≤ a) := by
  unfold sortLevels
  rw [if_pos rfl, List.Sorted, List.pairwise_reverse]
  exact List.sorted_insertionSort _ l

lemma sortLevels_sorted_sell (l : List ℚ) :
    (sortLevels Side.sell l).Sorted (· ≤ ·) := by
  unfold sortLevels
  rw [if_neg (by simp)]
  exact List.sorted_insertionSort _ l

lemma recordsOf_cons (i : String) (ids : List String) (o : TargetOrder)
    (os : List TargetOrder) :
    recordsOf (i :: ids) (o :: os) = ⟨i, o.role, o.price, o.size⟩ :: recordsOf ids os :=
  rfl

lemma isLimit_of_stop {o : TargetOrder} (h : o.role = Role.stop) :
    TargetOrder.isLimit o = false := by
  simp [TargetOrder.isLimit, h]

lemma isStopRec_mk (i : String) (o : TargetOrder) :
    SavedRecord.isStopRec ⟨i, o.role, o.price, o.size⟩ = TargetOrder.isStop o := by
  cases hr : o.role <;> simp [SavedRecord.isStopRec, TargetOrder.isStop, hr]

lemma limitSizeSum_recordsOf :
    ∀ (ids : List String) (orders : List TargetOrder), ids.length = orders.length →
      limitSizeSum (recordsOf ids orders) = sumSizes (orders.filter TargetOrder.isLimit) := by
  intro ids
  induction ids with
  | nil =>
    intro orders h
    cases orders with
    | nil => rfl
    | cons o os => simp at h
  | cons i ids ih =>
    intro orders h
    cases orders with
    | nil => simp at h
    | cons o os =>
      have hlen : ids.length = os.length := by simpa using h
      rw [recordsOf_cons, limitSizeSum, ih os hlen]
      cases hr : o.role
      · simp [List.filter_cons, isLimit_of_limit hr, sumSizes_cons]
      · simp [List.filter_cons, isLimit_of_stop hr]

lemma any_recordsOf :
    ∀ (ids : List String) (orders : List TargetOrder), ids.length = orders.length →
      (recordsOf ids orders).any SavedRecord.isStopRec = orders.any TargetOrder.isStop := by
  intro ids
  induction ids with
  | nil =>
    intro orders h
    cases orders with
    | nil => rfl
    | cons o os => simp at h
  | cons i ids ih =>
    intro orders h
    cases orders with
    | nil => simp at h
    | cons o os =>
      have hlen : ids.length = os.length := by simpa using h
      rw [recordsOf_cons, List.any_cons, List.any_cons, ih os hlen, isStopRec_mk]

lemma limitScan_priceMap (f g : ℚ → ℚ) (live : List LiveOrder) :
    ∀ saved : List SavedRecord,
      limitScan (live.map (priceMapLive f)) (saved.map (priceMapSaved g)) =
        limitScan live saved := by
  intro saved
  induction saved with
  | nil => rfl
  | cons s rest ih =>
    have hmap := liveLookup_priceMap f live s.id
    by_cases hs : s.role = Role.limit
    · cases hl : liveLookup live s.id with
      | none =>
        rw [hl] at hmap
        simp [limitScan, priceMapSaved, hs, hmap, hl]
      | some o =>
        rw [hl] at hmap
        simp [limitScan, priceMapSaved, hs, hmap, hl, ih, priceMapLive]
    · simp [limitScan, priceMapSaved, hs, ih]

lemma stopScan_priceMap (f g : ℚ → ℚ) (live : List LiveOrder) (target : ℚ) :
    ∀ (saved : List SavedRecord) (found : Bool),
      stopScan (live.map (priceMapLive f)) target found (saved.map (priceMapSaved g)) =
        stopScan live target found saved := by
  intro saved
  induction saved with
  | nil => intro found; rfl
  | cons s rest ih =>
    intro found
    have hmap := liveLookup_priceMap f live s.id
    by_cases hs : s.role = Role.stop
    · cases hl : liveLookup live s.id with
      | none =>
        rw [hl] at hmap
        simp [stopScan, priceMapSaved, hs, hmap, hl]
      | some o =>
        rw [hl] at hmap
        simp [stopScan, priceMapSaved, hs, hmap, hl, priceMapLive, ih]
    · simp [stopScan, priceMapSaved, hs, ih]

lemma check_integrity_priceMap (sp : InstrumentSpec) (saved : List SavedRecord)
    (live : List LiveOrder) (current_pos min_equity : ℚ) (config : Config)
    (f g : ℚ → ℚ) :
    check_integrity sp (saved.map (priceMapSaved g)) (live.map (priceMapLive f))
        current_pos min_equity config =
      check_integrity sp saved live current_pos min_equity config := by
  unfold check_integrity
  by_cases he : saved = []
  · rw [if_pos (by simp [he]), if_pos he]
  · rw [if_neg (by simp [he]), if_neg he, limitScan_priceMap f g]
    cases hscan : limitScan live saved with
    | none => rfl
    | some lsum =>
      exact stopScan_priceMap f g live (round_qty sp (current_pos + lsum)) saved false

lemma stopScan_append_limits (live : List LiveOrder) (t : ℚ) :
    ∀ (l1 : List SavedRecord) (rest : List SavedRecord) (found : Bool),
      (∀ r ∈ l1, r.role = Role.limit) →
      stopScan live t found (l1 ++ rest) = stopScan live t found rest := by
  intro l1
  induction l1 with
  | nil => intro rest found _; rfl
  | cons r l1 ih =>
    intro rest found h
    have hr : r.role = Role.limit := h r (List.mem_cons_self r l1)
    have hns : ¬ r.role = Role.stop := by rw [hr]; simp
    rw [List.cons_append]
    simp only [stopScan, if_neg hns]
    exact ih rest found (fun x hx => h x (List.mem_cons_of_mem r hx))

lemma stopScan_isSome (live : List LiveOrder) (t : ℚ) :
    ∀ (saved : List SavedRecord) (found : Bool),
      (∀ r ∈ saved, r.role = Role.stop → ∀ o, liveLookup live r.id = some o → o.size ≠ 0) →
      (stopScan live t found saved).isSome = true := by
  intro saved
  induction saved with
  | nil => intro found _; rfl
  | cons s rest ih =>
    intro found h
    by_cases hs : s.role = Role.stop
    · cases hl : liveLookup live s.id with
      | none => simp [stopScan, hs, hl]
      | some o =>
        have hnz : ¬ o.size = 0 := h s (List.mem_cons_self s rest) hs o hl
        by_cases htol : SIZE_TOLERANCE < |o.size - t| / o.size
        · simp [stopScan, hs, hl, hnz, htol]
        · simp only [stopScan, if_pos hs, hl, if_neg hnz, if_neg htol]
          exact ih true (fun x hx => h x (List.mem_cons_of_mem s hx))
    · simp only [stopScan, if_neg hs]
      exact ih found (fun x hx => h x (List.mem_cons_of_mem s hx))

lemma check_integrity_eq_stopScan (sp : InstrumentSpec) (saved : List SavedRecord)
    (live : List LiveOrder) (current_pos min_equity : ℚ) (config : Config) (L : ℚ)
    (hne : ¬ saved = []) (hscan : limitScan live saved = some L) :
    check_integrity sp saved live current_pos min_equity config =
      stopScan live (round_qty sp (current_pos + L)) false saved := by
  unfold check_integrity
  rw [if_neg hne, hscan]

lemma place_grid_eq (sp : InstrumentSpec) (config : Config)
    (base_equity current_pos : ℚ) (hbe : 0 < base_equity) :
    place_grid sp config base_equity current_pos =
      some ((buildLimits sp config.side (base_equity / 10) current_pos
          (sortLevels config.side config.levels)).1 ++
        [⟨Role.stop, config.stop_side, round_price sp config.stop,
          round_qty sp (current_pos +
            (buildLimits sp config.side (base_equity / 10) current_pos
              (sortLevels config.side config.levels)).2), true⟩]) := by
  unfold place_grid
  rw [if_neg (not_le.2 hbe)]

end Lemmas

/-- C1 (amended): for saved limit records `check_integrity` checks only
presence of the exchange order id in the live book and never compares any
price: its result is invariant under arbitrary rewriting of every saved
price and of every live resting price, so a live resting price differing
from the saved price does not by itself invalidate the grid. -/
theorem check_integrity_ignores_prices (sp : InstrumentSpec)
    (saved : List SavedRecord) (live : List LiveOrder)
    (current_pos min_equity : ℚ) (config : Config) (f g : ℚ → ℚ) :
    check_integrity sp (saved.map (priceMapSaved g)) (live.map (priceMapLive f))
        current_pos min_equity config =
      check_integrity sp saved live current_pos min_equity config :=
  check_integrity_priceMap sp saved live current_pos min_equity config f g

/-- C1 counterexample: a saved limit order at price 60000 rests live at
price 61000 (with unchanged size); the claim says the mismatch makes the
grid invalid, but `check_integrity` reports it healthy. -/
theorem limit_price_mismatch_healthy :
    check_integrity ⟨1, 1, 1⟩
        [⟨idA, Role.limit, 60000, 1⟩, ⟨idS, Role.stop, 59000, 1⟩]
        [⟨idA, 61000, 1⟩, ⟨idS, 59000, 1⟩] 0 8000 LONG = some true ∧
      (61000 : ℚ) ≠ 60000 := by
  constructor
  · unfold check_integrity
    rw [if_neg (by simp)]
    have hscan : limitScan [⟨idA, 61000, 1⟩, ⟨idS, 59000, 1⟩]
        [⟨idA, Role.limit, 60000, 1⟩, ⟨idS, Role.stop, 59000, 1⟩] = some (1 + 0) := rfl
    rw [hscan]
    have hlook : liveLookup [⟨idA, 61000, 1⟩, ⟨idS, 59000, 1⟩] idS
        = some ⟨idS, 59000, 1⟩ := rfl
    norm_num [stopScan, hlook, round_qty, pyRound, SIZE_TOLERANCE]
    intro hco
    exact absurd hco (by decide)
  · norm_num

/-- C2 (amended): `check_integrity` performs no per-limit size check and
never recomputes an ideal size from the basis equity (the `min_equity`
parameter is unread): any live limit size `x` whatsoever is accepted,
provided only that the live stop size equals the recomputed stop target
`round_qty (current_pos + x)`; live limit sizes enter the check only
through that stop-size target. -/
theorem check_integrity_no_limit_size_check (sp : InstrumentSpec)
    (pA pS plA plS szA szS x current_pos min_equity : ℚ) (config : Config)
    (hne : round_qty sp (current_pos + x) ≠ 0) :
    check_integrity sp
        [⟨idA, Role.limit, pA, szA⟩, ⟨idS, Role.stop, pS, szS⟩]
        [⟨idA, plA, x⟩, ⟨idS, plS, round_qty sp (current_pos + x)⟩]
        current_pos min_equity config = some true := by
  have hscan : limitScan [⟨idA, plA, x⟩, ⟨idS, plS, round_qty sp (current_pos + x)⟩]
      [⟨idA, Role.limit, pA, szA⟩, ⟨idS, Role.stop, pS, szS⟩] = some (x + 0) := rfl
  have hlook : liveLookup [⟨idA, plA, x⟩, ⟨idS, plS, round_qty sp (current_pos + x)⟩] idS
      = some ⟨idS, plS, round_qty sp (current_pos + x)⟩ := rfl
  have hall : ∀ r ∈ ([⟨idA, Role.limit, pA, szA⟩,
      ⟨idS, Role.stop, pS, szS⟩] : List SavedRecord), r.role = Role.stop →
      ∃ o, liveLookup [⟨idA, plA, x⟩, ⟨idS, plS, round_qty sp (current_pos + x)⟩] r.id
          = some o ∧ o.size = round_qty sp (current_pos + x) := by
    intro r hr hrole
    rcases List.mem_cons.1 hr with rfl | hr2
    · exact absurd hrole (by simp)
    rcases List.mem_cons.1 hr2 with rfl | hr3
    · exact ⟨_, hlook, rfl⟩
    · cases hr3
  rw [check_integrity_eq_stopScan sp _ _ current_pos min_equity config (x + 0)
    (by simp) hscan, add_zero,
    stopScan_of_matching _ _ hne _ false hall]
  rfl

/-- C2 witness for `check_integrity_no_limit_size_check`. -/
theorem check_integrity_no_limit_size_check_witness :
    round_qty ⟨1, 1, 1⟩ ((0 : ℚ) + 5) ≠ 0 ∧
      check_integrity ⟨1, 1, 1⟩
        [⟨idA, Role.limit, 60000, 1⟩, ⟨idS, Role.stop, 59000, 6⟩]
        [⟨idA, 60000, 5⟩, ⟨idS, 59000, round_qty ⟨1, 1, 1⟩ ((0 : ℚ) + 5)⟩]
        0 8000 LONG = some true :=
  ⟨by norm_num [round_qty, pyRound],
    check_integrity_no_limit_size_check ⟨1, 1, 1⟩ 60000 59000 60000 59000 1 6 5 0 8000 LONG
      (by norm_num [round_qty, pyRound])⟩

/-- C2 counterexample: the saved limit at price 60000 rests live with size
1, while its ideal size recomputed from basis equity 8000 is 0.0133, a
deviation far above the 5 percent tolerance; the claim says that alone
invalidates the grid, but `check_integrity` reports healthy. -/
theorem limit_size_drift_healthy :
    check_integrity defaultSpec
        [⟨idA, Role.limit, 60000, 1⟩, ⟨idS, Role.stop, 59000, 1⟩]
        [⟨idA, 60000, 1⟩, ⟨idS, 59000, 1⟩] 0 8000 LONG = some true ∧
      SIZE_TOLERANCE < |1 - ComputeOrderSize defaultSpec 60000 8000 8000| / 1 := by
  constructor
  · unfold check_integrity
    rw [if_neg (by simp)]
    have hscan : limitScan [⟨idA, 60000, 1⟩, ⟨idS, 59000, 1⟩]
        [⟨idA, Role.limit, 60000, 1⟩, ⟨idS, Role.stop, 59000, 1⟩] = some (1 + 0) := rfl
    rw [hscan]
    have hlook : liveLookup [⟨idA, 60000, 1⟩, ⟨idS, 59000, 1⟩] idS
        = some ⟨idS, 59000, 1⟩ := rfl
    norm_num [stopScan, hlook, round_qty, pyRound, SIZE_TOLERANCE, defaultSpec]
    intro hco
    exact absurd hco (by decide)
  · have hco : ComputeOrderSize defaultSpec 60000 8000 8000 = 133 / 10000 := by
      norm_num [ComputeOrderSize, round_qty, pyRound, defaultSpec]
    have habs : |(1 : ℚ) - 133 / 10000| = 1 - 133 / 10000 :=
      abs_of_nonneg (by norm_num)
    rw [hco, habs]
    norm_num [SIZE_TOLERANCE]

/-- C3 (amended): for the saved stop record `check_integrity` verifies
presence and the 5 percent size test against
`round_qty (sum of live limit sizes + current_pos)`, but it never compares
the stop price: the classification is unchanged under any change of the
live stop price, so a live stop price of 58500 against a saved stop price
of 59000 with matching sizes stays healthy. -/
theorem check_integrity_ignores_stop_price (sp : InstrumentSpec) (i : String)
    (psaved plive plive2 sz s current_pos min_equity : ℚ) (config : Config) :
    check_integrity sp [⟨i, Role.stop, psaved, sz⟩] [⟨i, plive, s⟩]
        current_pos min_equity config =
      check_integrity sp [⟨i, Role.stop, psaved, sz⟩] [⟨i, plive2, s⟩]
        current_pos min_equity config := by
  have h := check_integrity_priceMap sp [⟨i, Role.stop, psaved, sz⟩] [⟨i, plive2, s⟩]
      current_pos min_equity config (fun _ => plive) id
  simpa [priceMapSaved, priceMapLive] using h

/-- C3 counterexample: live stop price 58500 against saved stop price
59000, sizes matching the recomputed target exactly; the claim says this
is invalid regardless of size, but `check_integrity` reports healthy. -/
theorem stop_price_mismatch_healthy :
    check_integrity ⟨1, 1, 1⟩ [⟨idS, Role.stop, 59000, 1⟩] [⟨idS, 58500, 1⟩]
        1 8000 LONG = some true ∧ (58500 : ℚ) ≠ 59000 := by
  constructor
  · unfold check_integrity
    rw [if_neg (by simp)]
    have hscan : limitScan [⟨idS, 58500, 1⟩] [⟨idS, Role.stop, 59000, 1⟩]
        = some 0 := rfl
    rw [hscan]
    have hlook : liveLookup [⟨idS, 58500, 1⟩] idS = some ⟨idS, 58500, 1⟩ := rfl
    norm_num [stopScan, hlook, round_qty, pyRound, SIZE_TOLERANCE]
  · norm_num

/-- C4 (amended): the stop-size drift comparison is a strict `>` against
the 5 percent tolerance, measured relative to the live size: the grid is
healthy exactly when `|live - target| / live ≤ 0.05`; in particular a
deviation of exactly 5.0 percent is healthy, not invalid, and 4.99 percent
is healthy. -/
theorem stop_size_tolerance_boundary (sp : InstrumentSpec) (i : String)
    (psaved plive sz s current_pos min_equity : ℚ) (config : Config)
    (hs : s ≠ 0) :
    check_integrity sp [⟨i, Role.stop, psaved, sz⟩] [⟨i, plive, s⟩]
        current_pos min_equity config =
      some (decide (|s - round_qty sp current_pos| / s ≤ SIZE_TOLERANCE)) := by
  unfold check_integrity
  rw [if_neg (by simp)]
  have hscan : limitScan [⟨i, plive, s⟩] [⟨i, Role.stop, psaved, sz⟩] = some 0 := rfl
  rw [hscan]
  have hlook : liveLookup [⟨i, plive, s⟩] i = some ⟨i, plive, s⟩ := by
    simp [liveLookup]
  simp only [stopScan, hlook, if_pos rfl, add_zero, if_neg hs]
  by_cases hc : SIZE_TOLERANCE < |s - round_qty sp current_pos| / s
  · rw [if_pos hc]
    simp [not_le.2 hc]
  · rw [if_neg hc]
    simp [not_lt.1 hc, stopScan]

/-- C4 witness for `stop_size_tolerance_boundary`. -/
theorem stop_size_tolerance_boundary_witness :
    (20 : ℚ) ≠ 0 ∧
      check_integrity ⟨1, 1, 1⟩ [⟨idS, Role.stop, 59000, 20⟩] [⟨idS, 59000, 20⟩]
        19 8000 LONG =
        some (decide (|20 - round_qty ⟨1, 1, 1⟩ (19 : ℚ)| / 20 ≤ SIZE_TOLERANCE)) :=
  ⟨by norm_num,
    stop_size_tolerance_boundary ⟨1, 1, 1⟩ idS 59000 59000 20 20 19 8000 LONG
      (by norm_num)⟩

/-- C4 counterexample: live stop size 20 against target 19 is a deviation
of exactly 5.0 percent of the live size; the claim says exactly 5.0 percent
is classified invalid, but `check_integrity` reports healthy. -/
theorem exact_five_percent_healthy :
    check_integrity ⟨1, 1, 1⟩ [⟨idS, Role.stop, 59000, 20⟩] [⟨idS, 59000, 20⟩]
        19 8000 LONG = some true ∧
      |20 - round_qty ⟨1, 1, 1⟩ ((19 : ℚ) + 0)| / 20 = SIZE_TOLERANCE := by
  constructor
  · unfold check_integrity
    rw [if_neg (by simp)]
    have hscan : limitScan [⟨idS, 59000, 20⟩] [⟨idS, Role.stop, 59000, 20⟩]
        = some 0 := rfl
    rw [hscan]
    have hlook : liveLookup [⟨idS, 59000, 20⟩] idS = some ⟨idS, 59000, 20⟩ := rfl
    norm_num [stopScan, hlook, round_qty, pyRound, SIZE_TOLERANCE]
  · norm_num [round_qty, pyRound, SIZE_TOLERANCE]

/-- C9 (amended): the position-close order built during the cold-start
flow is a plain market order whose payload carries no reduce-only flag
(modelled as `reduceOnly = false`, the exchange default), and the
position-close step belongs only to the cold-start sequence, never to the
ordinary per-tick rebuild sequence. -/
theorem close_position_cold_start_only :
    (∀ (posSide : String) (size : ℚ),
        (close_position_order posSide size).orderType = mktWord ∧
        (close_position_order posSide size).reduceOnly = false) ∧
      BotStep.closePosition ∈ startup_sequence ∧
      BotStep.closePosition ∉ tick_rebuild_sequence := by
  refine ⟨fun ps sz => ⟨rfl, rfl⟩, ?_, ?_⟩
  · simp [startup_sequence]
  · simp [tick_rebuild_sequence]

/-- C9 counterexample: closing a long position of size 2 at cold start
submits a market sell order whose reduce-only flag is false, contradicting
the claim that the close is a reduce-only market order. -/
theorem close_position_not_reduce_only :
    (close_position_order longWord 2).orderType = mktWord ∧
      (close_position_order longWord 2).side = sellWord ∧
      (close_position_order longWord 2).reduceOnly = false :=
  ⟨rfl, rfl, rfl⟩

/-- C10 (amended): the stop-size drift test divides by the live stop size
with no guard. When every saved limit record is present in the live book
and the saved stop record (first stop in the list) maps to a live order of
size zero, `check_integrity` raises the division error (`none`) instead of
returning a classification; and whenever every live order looked up for a
saved stop record has nonzero size, the check does return a
classification. The error is not reached when an earlier check already
fails: a missing saved limit returns invalid before the division. -/
theorem check_integrity_zero_stop_size (sp : InstrumentSpec) :
    (∀ (l1 l2 : List SavedRecord) (s : SavedRecord) (live : List LiveOrder)
        (current_pos min_equity : ℚ) (config : Config) (o : LiveOrder) (L : ℚ),
        (∀ r ∈ l1, r.role = Role.limit) → s.role = Role.stop →
        limitScan live (l1 ++ s :: l2) = some L →
        liveLookup live s.id = some o → o.size = 0 →
        check_integrity sp (l1 ++ s :: l2) live current_pos min_equity config = none) ∧
      (∀ (saved : List SavedRecord) (live : List LiveOrder)
          (current_pos min_equity : ℚ) (config : Config),
        (∀ r ∈ saved, r.role = Role.stop →
          ∀ o, liveLookup live r.id = some o → o.size ≠ 0) →
        (check_integrity sp saved live current_pos min_equity config).isSome = true) := by
  constructor
  · intro l1 l2 s live current_pos min_equity config o L hl1 hs hscan hlook hzero
    rw [check_integrity_eq_stopScan sp _ _ current_pos min_equity config L
      (by simp) hscan]
    rw [stopScan_append_limits live _ l1 (s :: l2) false hl1]
    simp only [stopScan, if_pos hs, hlook, if_pos hzero]
  · intro saved live current_pos min_equity config h
    unfold check_integrity
    by_cases he : saved = []
    · rw [if_pos he]; rfl
    · rw [if_neg he]
      cases hscan : limitScan live saved with
      | none => rfl
      | some L => exact stopScan_isSome live _ saved false h

/-- C10 witness for `check_integrity_zero_stop_size`. -/
theorem check_integrity_zero_stop_size_witness :
    check_integrity ⟨1, 1, 1⟩
        [⟨idA, Role.limit, 5, 1⟩, ⟨idS, Role.stop, 3, 1⟩]
        [⟨idA, 4, 2⟩, ⟨idS, 3, 0⟩] 0 8000 LONG = none ∧
      (check_integrity ⟨1, 1, 1⟩ [⟨idS, Role.stop, 3, 1⟩] [⟨idS, 3, 2⟩]
        0 8000 LONG).isSome = true := by
  constructor
  · exact (check_integrity_zero_stop_size ⟨1, 1, 1⟩).1
      [⟨idA, Role.limit, 5, 1⟩] [] ⟨idS, Role.stop, 3, 1⟩
      [⟨idA, 4, 2⟩, ⟨idS, 3, 0⟩] 0 8000 LONG ⟨idS, 3, 0⟩ (2 + 0)
      (by
        intro r hr
        rcases List.mem_cons.1 hr with rfl | h2
        · rfl
        · cases h2)
      rfl rfl rfl rfl
  · exact (check_integrity_zero_stop_size ⟨1, 1, 1⟩).2
      [⟨idS, Role.stop, 3, 1⟩] [⟨idS, 3, 2⟩] 0 8000 LONG
      (by
        intro r hr hrole o hlook
        rcases List.mem_cons.1 hr with rfl | h2
        · have : o = ⟨idS, 3, 2⟩ := by
            have h := hlook
            rw [show liveLookup [⟨idS, 3, 2⟩] idS = some ⟨idS, 3, 2⟩ from rfl] at h
            exact (Option.some_injective _ h).symm
          rw [this]
          norm_num
        · cases h2)

/-- C10 counterexample: with the saved limit record absent from the live
book and the saved stop record mapping to a live order of size zero, the
check returns the classification invalid (`some false`) rather than
failing with the division error, because the missing-limit branch returns
first; so not every input whose stop maps to a zero-size live order makes
the check fail. -/
theorem missing_limit_before_zero_division :
    check_integrity ⟨1, 1, 1⟩
        [⟨idA, Role.limit, 5, 1⟩, ⟨idS, Role.stop, 3, 1⟩]
        [⟨idS, 3, 0⟩] 0 8000 LONG = some false ∧
      liveLookup [⟨idS, 3, 0⟩] idS = some ⟨idS, 3, 0⟩ :=
  ⟨rfl, rfl⟩

/-- C8 (confirmed): with the price level and the instrument spec fixed,
the per-rung order quantity `round_qty((min(E1, E2) / 10) / price)` is
monotone in the minimum of the two account equities: raising either
equity never shrinks the quantity. -/
theorem ComputeOrderSize_monotone (sp : InstrumentSpec) (roundedPrice : ℚ)
    (hprice : 0 < roundedPrice) (hstep : 0 < sp.qty_step)
    (e1 e2 f1 f2 : ℚ) (h1 : e1 ≤ f1) (h2 : e2 ≤ f2) :
    ComputeOrderSize sp roundedPrice e1 e2 ≤ ComputeOrderSize sp roundedPrice f1 f2 := by
  unfold ComputeOrderSize
  apply round_qty_mono sp hstep
  have hmin : min e1 e2 ≤ min f1 f2 := min_le_min h1 h2
  gcongr

/-- C8 witness for `ComputeOrderSize_monotone`. -/
theorem ComputeOrderSize_monotone_witness :
    (0 : ℚ) < 60000 ∧ (0 : ℚ) < defaultSpec.qty_step ∧
      (8000 : ℚ) ≤ 9000 ∧ (10000 : ℚ) ≤ 12000 ∧
      ComputeOrderSize defaultSpec 60000 8000 10000 ≤
        ComputeOrderSize defaultSpec 60000 9000 12000 :=
  ⟨by norm_num, by norm_num [defaultSpec], by norm_num, by norm_num,
    ComputeOrderSize_monotone defaultSpec 60000 (by norm_num)
      (by norm_num [defaultSpec]) 8000 10000 9000 12000 (by norm_num) (by norm_num)⟩

/-- C6 (confirmed): every grid built by `place_grid` with positive basis
equity contains exactly one stop order; its side is the configured stop
side, its price the rounded stop trigger, its size
`round_qty(current_pos + sum of the emitted limit sizes)`, and its
reduce-only flag is true. -/
theorem place_grid_one_stop (sp : InstrumentSpec) (config : Config)
    (base_equity current_pos : ℚ) (hbe : 0 < base_equity) :
    ((place_grid sp config base_equity current_pos).getD []).filter TargetOrder.isStop =
      [⟨Role.stop, config.stop_side, round_price sp config.stop,
        round_qty sp (current_pos + sumSizes
          (((place_grid sp config base_equity current_pos).getD []).filter
            TargetOrder.isLimit)), true⟩] := by
  rw [place_grid_eq sp config base_equity current_pos hbe, Option.getD_some,
    List.filter_append, List.filter_append, filter_isStop_buildLimits,
    filter_isLimit_buildLimits]
  simp [TargetOrder.isStop, TargetOrder.isLimit, List.filter_cons,
    buildLimits_sumSizes]

/-- C6 witness for `place_grid_one_stop`. -/
theorem place_grid_one_stop_witness :
    (0 : ℚ) < 60 ∧
      ((place_grid ⟨1, 1, 1⟩ LONG 60 0).getD []).filter TargetOrder.isStop =
        [⟨Role.stop, LONG.stop_side, round_price ⟨1, 1, 1⟩ LONG.stop,
          round_qty ⟨1, 1, 1⟩ (0 + sumSizes
            (((place_grid ⟨1, 1, 1⟩ LONG 60 0).getD []).filter
              TargetOrder.isLimit)), true⟩] :=
  ⟨by norm_num, place_grid_one_stop ⟨1, 1, 1⟩ LONG 60 0 (by norm_num)⟩

/-- C7 (confirmed): the level loop of `place_grid` processes the
configured rungs closest-to-market first (descending prices for the buy
account, ascending for the sell account), starts the covered counter at
`current_pos`, and emits a limit order for a rung exactly when the counter
is below 90 percent of the ideal size of that rung, otherwise skipping the
rung and decrementing the counter by that ideal size: the emitted limit
orders are exactly `specNetting` run on a sorted permutation of the
levels. -/
theorem place_grid_netting_order (sp : InstrumentSpec) (config : Config)
    (base_equity current_pos : ℚ) (hbe : 0 < base_equity) :
    ∃ lv : List ℚ, lv.Perm config.levels ∧
      (config.side = Side.buy → lv.Sorted (fun a b : ℚ => b ≤ a)) ∧
      (config.side = Side.sell → lv.Sorted (· ≤ ·)) ∧
      ((place_grid sp config base_equity current_pos).getD []).filter
          TargetOrder.isLimit =
        specNetting sp config.side (base_equity / 10) current_pos lv := by
  refine ⟨sortLevels config.side config.levels, sortLevels_perm _ _, ?_, ?_, ?_⟩
  · intro hb
    rw [hb]
    exact sortLevels_sorted_buy _
  · intro hs
    rw [hs]
    exact sortLevels_sorted_sell _
  · rw [place_grid_eq sp config base_equity current_pos hbe, Option.getD_some,
      List.filter_append, filter_isLimit_buildLimits]
    simp [TargetOrder.isLimit, List.filter_cons, buildLimits_eq_specNetting]

/-- C7 witness for `place_grid_netting_order`. -/
theorem place_grid_netting_order_witness :
    (0 : ℚ) < 60 ∧
      (∃ lv : List ℚ, lv.Perm LONG.levels ∧
        (LONG.side = Side.buy → lv.Sorted (fun a b : ℚ => b ≤ a)) ∧
        (LONG.side = Side.sell → lv.Sorted (· ≤ ·)) ∧
        ((place_grid ⟨1, 1, 1⟩ LONG 60 0).getD []).filter TargetOrder.isLimit =
          specNetting ⟨1, 1, 1⟩ LONG.side ((60 : ℚ) / 10) 0 lv) :=
  ⟨by norm_num, place_grid_netting_order ⟨1, 1, 1⟩ LONG 60 0 (by norm_num)⟩

/-- C5 (confirmed): round trip — when a grid built by `place_grid` with
positive basis equity is recorded in full (every submission accepted,
with pairwise distinct exchange order ids) and `check_integrity` is then
run against that record list, a live book holding exactly the submitted
orders unchanged, and the same position, the grid is classified healthy. -/
theorem place_grid_roundtrip (sp : InstrumentSpec) (config : Config)
    (base_equity current_pos min_equity : ℚ) (c2 : Config)
    (ids : List String) (orders : List TargetOrder)
    (hbe : 0 < base_equity) (hminq : 0 < sp.min_qty)
    (hpg : place_grid sp config base_equity current_pos = some orders)
    (hlen : ids.length = orders.length) (hnd : ids.Nodup) :
    check_integrity sp (recordsOf ids orders) (liveOf ids orders)
      current_pos min_equity c2 = some true := by
  rw [place_grid_eq sp config base_equity current_pos hbe] at hpg
  have horders := (Option.some.inj hpg).symm
  subst horders
  set bl := buildLimits sp config.side (base_equity / 10) current_pos
      (sortLevels config.side config.levels) with hbl
  set orders := bl.1 ++
      [⟨Role.stop, config.stop_side, round_price sp config.stop,
        round_qty sp (current_pos + bl.2), true⟩] with hords
  have hlook : ∀ s ∈ recordsOf ids orders,
      liveLookup (liveOf ids orders) s.id = some ⟨s.id, s.price, s.size⟩ := by
    intro s hs
    obtain ⟨p, hp, rfl⟩ := List.mem_map.1 hs
    exact liveLookup_liveOf hnd (le_of_eq hlen) hp
  have hscan : limitScan (liveOf ids orders) (recordsOf ids orders)
      = some (limitSizeSum (recordsOf ids orders)) :=
    limitScan_of_present _ _ (fun s hs _ => ⟨_, hlook s hs, rfl⟩)
  have hne : ¬ recordsOf ids orders = [] := by
    intro hcon
    have hlen0 : (recordsOf ids orders).length = 0 := by rw [hcon]; rfl
    rw [recordsOf, List.length_map, List.length_zip, hlen, min_self] at hlen0
    rw [hords] at hlen0
    simp at hlen0
  have hsum : limitSizeSum (recordsOf ids orders) = bl.2 := by
    rw [limitSizeSum_recordsOf ids orders hlen, hords, List.filter_append]
    rw [hbl, filter_isLimit_buildLimits]
    simp [TargetOrder.isLimit, List.filter_cons, buildLimits_sumSizes]
  have htz : round_qty sp (current_pos + bl.2) ≠ 0 :=
    ne_of_gt (lt_of_lt_of_le hminq (min_qty_le_round_qty sp _))
  have hstopsize : ∀ s ∈ recordsOf ids orders, s.role = Role.stop →
      s.size = round_qty sp (current_pos + bl.2) := by
    intro s hs hrole
    obtain ⟨p, hp, rfl⟩ := List.mem_map.1 hs
    have hrole2 : p.2.role = Role.stop := hrole
    have hmem : p.2 ∈ orders := (List.of_mem_zip hp).2
    rw [hords] at hmem
    rcases List.mem_append.1 hmem with h1 | h2
    · have hlim := buildLimits_role sp config.side (base_equity / 10) _ current_pos p.2 h1
      rw [hlim] at hrole2
      exact absurd hrole2 (by simp)
    · have hS := List.mem_singleton.1 h2
      show p.2.size = round_qty sp (current_pos + bl.2)
      rw [hS]
  have hstopmatch : ∀ s ∈ recordsOf ids orders, s.role = Role.stop →
      ∃ o, liveLookup (liveOf ids orders) s.id = some o ∧
        o.size = round_qty sp (current_pos + bl.2) :=
    fun s hs hrole => ⟨_, hlook s hs, hstopsize s hs hrole⟩
  rw [check_integrity_eq_stopScan sp _ _ current_pos min_equity c2 _ hne hscan,
    hsum, stopScan_of_matching _ _ htz _ false hstopmatch,
    any_recordsOf ids orders hlen, hords]
  simp [TargetOrder.isStop, List.any_append]

/-- C5 witness for `place_grid_roundtrip`. -/
theorem place_grid_roundtrip_witness :
    (0 : ℚ) < 60 ∧ (0 : ℚ) < (⟨1, 1, 1⟩ : InstrumentSpec).min_qty ∧
      place_grid ⟨1, 1, 1⟩ ⟨[60000], 59000, Side.buy, Side.sell⟩ 60 0 =
        some [⟨Role.limit, Side.buy, 60000, 1, false⟩,
          ⟨Role.stop, Side.sell, 59000, 1, true⟩] ∧
      check_integrity ⟨1, 1, 1⟩
        (recordsOf [idA, idS] [⟨Role.limit, Side.buy, 60000, 1, false⟩,
          ⟨Role.stop, Side.sell, 59000, 1, true⟩])
        (liveOf [idA, idS] [⟨Role.limit, Side.buy, 60000, 1, false⟩,
          ⟨Role.stop, Side.sell, 59000, 1, true⟩])
        0 8000 LONG = some true := by
  have hpg : place_grid ⟨1, 1, 1⟩ ⟨[60000], 59000, Side.buy, Side.sell⟩ 60 0 =
      some [⟨Role.limit, Side.buy, 60000, 1, false⟩,
        ⟨Role.stop, Side.sell, 59000, 1, true⟩] := by
    rw [place_grid_eq _ _ _ _ (by norm_num)]
    norm_num [sortLevels, List.insertionSort, List.orderedInsert, buildLimits,
      buildLimits_cons, round_price, round_qty, pyRound]
  refine ⟨by norm_num, by norm_num, hpg, ?_⟩
  exact place_grid_roundtrip ⟨1, 1, 1⟩ ⟨[60000], 59000, Side.buy, Side.sell⟩ 60 0 8000 LONG
    [idA, idS] _ (by norm_num) (by norm_num) hpg (by simp) (by simp [idA, idS])

end EqualOpp
